import Mathlib

/-!
Verification of the client-side core of the feedback-analysis system:
the client synchronization / merge protocol (SSE service and the two
feed-merge sites), the playback coordinator (AudioManager) and the
submission form validation, shallowly embedded from the TypeScript
sources under `src/frontend/src`.
-/

namespace FeedbackAnalysis

/-- Feedback snapshot as carried by a `feedback_update` event and held in
the local feed (fields relevant to the merge protocol; `id` is the
reconciliation key used by `findIndex((f) => f.id === event.data.id)`). -/
structure Feedback where
  id : String
  text : String
  category : String
  processing_status : String
deriving DecidableEq, Repr

/-- JavaScript `Array.prototype.findIndex`: index of the first element
satisfying the predicate, `-1` when none does. -/
def findIndex (p : Feedback → Bool) : List Feedback → Int
  | [] => -1
  | x :: xs =>
    if p x then 0
    else if findIndex p xs < 0 then -1 else findIndex p xs + 1

/-- The `setFeedback` updater in `Dashboard.tsx`'s `handleSSEEvent`
(`feedback_update` branch): replace the entry at `existingIndex` when the
id is already present, otherwise `[event.data, ...prevFeedback.slice(0, 4)]`
(prepend and keep only the 5 most recent). -/
def mergeDash (prevFeedback : List Feedback) (e : Feedback) : List Feedback :=
  if 0 ≤ findIndex (fun f => f.id == e.id) prevFeedback then
    prevFeedback.set (findIndex (fun f => f.id == e.id) prevFeedback).toNat e
  else e :: prevFeedback.take 4

/-- The `setFeedback` updater in `use-dashboard.ts`'s SSE merge effect:
replace the entry at `existingIndex` when the id is already present,
otherwise `[latestFeedback, ...prevFeedback]` (prepend, no trim). -/
def mergeHook (prevFeedback : List Feedback) (e : Feedback) : List Feedback :=
  if 0 ≤ findIndex (fun f => f.id == e.id) prevFeedback then
    prevFeedback.set (findIndex (fun f => f.id == e.id) prevFeedback).toNat e
  else e :: prevFeedback

/-- Proof-side generalisation of the two merge updaters: both replace in
place on an id hit and otherwise prepend, differing only in the trim `tr`
applied to the old feed when prepending. -/
def mergeGen (tr : List Feedback → List Feedback)
    (prevFeedback : List Feedback) (e : Feedback) : List Feedback :=
  if 0 ≤ findIndex (fun f => f.id == e.id) prevFeedback then
    prevFeedback.set (findIndex (fun f => f.id == e.id) prevFeedback).toNat e
  else e :: tr prevFeedback

lemma mergeDash_eq_gen (prev : List Feedback) (e : Feedback) :
    mergeDash prev e = mergeGen (fun l => l.take 4) prev e := rfl

lemma mergeHook_eq_gen (prev : List Feedback) (e : Feedback) :
    mergeHook prev e = mergeGen (fun l => l) prev e := rfl

/-- The ids of the entries of a feed, in order. -/
def feedIds (l : List Feedback) : List String := l.map Feedback.id

/-- Folding a sequence of `feedback_update` snapshots into the feed via
the `Dashboard.tsx` merge. -/
def applyEvents (feed : List Feedback) (es : List Feedback) : List Feedback :=
  es.foldl mergeDash feed

/-- Folding a sequence of `feedback_update` snapshots into the feed via
the `use-dashboard.ts` merge. -/
def applyEventsHook (feed : List Feedback) (es : List Feedback) : List Feedback :=
  es.foldl mergeHook feed

/-- Most recently observed snapshot for a given id in a sequence of
events (specification-side definition used to state latest-wins). -/
def lastSnap (id : String) : List Feedback → Option Feedback
  | [] => none
  | e :: rest =>
    match lastSnap id rest with
    | some y => some y
    | none => if e.id == id then some e else none

lemma findIndex_ge_neg_one (p : Feedback → Bool) :
    ∀ l : List Feedback, -1 ≤ findIndex p l := by
  intro l
  induction l with
  | nil => simp [findIndex]
  | cons x xs ih =>
    simp only [findIndex]
    split
    · omega
    · split <;> omega

lemma findIndex_neg_iff (p : Feedback → Bool) :
    ∀ l : List Feedback, findIndex p l < 0 ↔ ∀ x ∈ l, p x = false := by
  intro l
  induction l with
  | nil => simp [findIndex]
  | cons x xs ih =>
    simp only [findIndex, List.mem_cons]
    by_cases hx : p x
    · simp only [hx, if_true]
      constructor
      · intro h; omega
      · intro h
        have := h x (Or.inl rfl)
        simp [hx] at this
    · simp only [hx, if_false]
      have hge := findIndex_ge_neg_one p xs
      constructor
      · intro h y hy
        rcases hy with rfl | hy
        · simpa using hx
        · by_cases hneg : findIndex p xs < 0
          · exact (ih.mp hneg) y hy
          · simp only [if_neg hneg] at h; omega
      · intro h
        have : findIndex p xs < 0 := ih.mpr (fun y hy => h y (Or.inr hy))
        simp [this]

lemma findIndex_get? (p : Feedback → Bool) :
    ∀ l : List Feedback, 0 ≤ findIndex p l →
      ∃ g, l.get? (findIndex p l).toNat = some g ∧ p g = true := by
  intro l
  induction l with
  | nil => intro h; simp [findIndex] at h
  | cons x xs ih =>
    intro h
    by_cases hx : p x = true
    · refine ⟨x, ?_, hx⟩
      simp [findIndex, hx]
    · have hx' : p x = false := by simpa using hx
      by_cases hneg : findIndex p xs < 0
      · exfalso
        have hne : findIndex p (x :: xs) = -1 := by simp [findIndex, hx', hneg]
        rw [hne] at h; omega
      · have hrec : findIndex p (x :: xs) = findIndex p xs + 1 := by
          simp [findIndex, hx', hneg]
        obtain ⟨g, hg, hpg⟩ := ih (by omega)
        refine ⟨g, ?_, hpg⟩
        rw [hrec]
        have htn : (findIndex p xs + 1).toNat = (findIndex p xs).toNat + 1 := by omega
        simpa [htn] using hg

lemma findIndex_set (p : Feedback → Bool) (e : Feedback) (hpe : p e = true) :
    ∀ (l : List Feedback) (n : Nat), findIndex p l = (n : Int) →
      findIndex p (l.set n e) = (n : Int) := by
  intro l
  induction l with
  | nil => intro n h; simp [findIndex] at h
  | cons x xs ih =>
    intro n h
    by_cases hx : p x = true
    · have h0 : findIndex p (x :: xs) = 0 := by simp [findIndex, hx]
      rw [h0] at h
      have hn : n = 0 := by omega
      subst hn
      simp [List.set, findIndex, hpe]
    · have hx' : p x = false := by simpa using hx
      by_cases hneg : findIndex p xs < 0
      · exfalso
        have hne : findIndex p (x :: xs) = -1 := by simp [findIndex, hx', hneg]
        rw [hne] at h; omega
      · have hrec : findIndex p (x :: xs) = findIndex p xs + 1 := by
          simp [findIndex, hx', hneg]
        rw [hrec] at h
        obtain ⟨m, rfl⟩ : ∃ m, n = m + 1 := ⟨n - 1, by omega⟩
        have hxs : findIndex p xs = (m : Int) := by omega
        have hset := ih m hxs
        have hcons : (x :: xs).set (m + 1) e = x :: xs.set m e := rfl
        rw [hcons]
        have hneg2 : ¬ findIndex p (xs.set m e) < 0 := by rw [hset]; omega
        have hstep : findIndex p (x :: xs.set m e) = findIndex p (xs.set m e) + 1 := by
          simp [findIndex, hx', hneg2]
        rw [hstep, hset]
        omega

lemma set_get?_self {α : Type _} :
    ∀ (l : List α) (n : Nat) (a : α), l.get? n = some a → l.set n a = l := by
  intro l
  induction l with
  | nil => intro n a h; simp at h
  | cons x xs ih =>
    intro n a h
    cases n with
    | zero => simp at h; simp [List.set, h]
    | succ m =>
      simp only [List.get?] at h
      simp [List.set, ih m a h]

lemma mem_set_cases {α : Type _} :
    ∀ (l : List α) (n : Nat) (a x : α), x ∈ l.set n a →
      x = a ∨ ∃ j, j ≠ n ∧ l.get? j = some x := by
  intro l
  induction l with
  | nil => intro n a x h; simp [List.set] at h
  | cons y ys ih =>
    intro n a x h
    cases n with
    | zero =>
      simp only [List.set, List.mem_cons] at h
      rcases h with rfl | h
      · exact Or.inl rfl
      · obtain ⟨j, hj⟩ := List.get?_of_mem h
        exact Or.inr ⟨j + 1, by omega, by simpa using hj⟩
    | succ m =>
      simp only [List.set, List.mem_cons] at h
      rcases h with rfl | h
      · exact Or.inr ⟨0, by omega, rfl⟩
      · rcases ih m a x h with rfl | ⟨j, hj, hget⟩
        · exact Or.inl rfl
        · exact Or.inr ⟨j + 1, by omega, by simpa using hget⟩

lemma nodup_get?_inj {α : Type _} :
    ∀ (l : List α), l.Nodup → ∀ (i j : Nat) (a : α),
      l.get? i = some a → l.get? j = some a → i = j := by
  intro l
  induction l with
  | nil => intro _ i j a h; simp at h
  | cons x xs ih =>
    intro hnd i j a hi hj
    have hx : x ∉ xs := (List.nodup_cons.mp hnd).1
    have hxs : xs.Nodup := (List.nodup_cons.mp hnd).2
    cases i with
    | zero =>
      cases j with
      | zero => rfl
      | succ m =>
        simp only [List.get?] at hi hj
        obtain rfl : x = a := by simpa using hi
        exact absurd (List.get?_mem hj) hx
    | succ n =>
      cases j with
      | zero =>
        simp only [List.get?] at hi hj
        obtain rfl : x = a := by simpa using hj
        exact absurd (List.get?_mem hi) hx
      | succ m =>
        simp only [List.get?] at hi hj
        exact congrArg Nat.succ (ih hxs n m a hi hj)

lemma mergeGen_found (tr : List Feedback → List Feedback)
    (feed : List Feedback) (e : Feedback) (n : Nat)
    (h : findIndex (fun f => f.id == e.id) feed = (n : Int)) :
    mergeGen tr feed e = feed.set n e := by
  unfold mergeGen
  have ht : ((n : Int)).toNat = n := by omega
  rw [h, if_pos (by omega : (0 : Int) ≤ (n : Int)), ht]

lemma mergeGen_neg (tr : List Feedback → List Feedback)
    (feed : List Feedback) (e : Feedback)
    (h : findIndex (fun f => f.id == e.id) feed < 0) :
    mergeGen tr feed e = e :: tr feed := by
  unfold mergeGen
  rw [if_neg (by omega)]

lemma mergeGen_not_mem (tr : List Feedback → List Feedback)
    (feed : List Feedback) (e : Feedback) (h : e.id ∉ feedIds feed) :
    mergeGen tr feed e = e :: tr feed := by
  apply mergeGen_neg
  rw [findIndex_neg_iff]
  intro x hx
  rw [beq_eq_false_iff_ne]
  intro hid
  exact h (by simpa [feedIds, ← hid] using List.mem_map_of_mem Feedback.id hx)

lemma mergeGen_idem (tr : List Feedback → List Feedback)
    (feed : List Feedback) (e : Feedback) :
    mergeGen tr (mergeGen tr feed e) e = mergeGen tr feed e := by
  have hpe : (fun f : Feedback => f.id == e.id) e = true := by simp
  by_cases h0 : 0 ≤ findIndex (fun f => f.id == e.id) feed
  · obtain ⟨n, hn⟩ : ∃ n : Nat, findIndex (fun f => f.id == e.id) feed = (n : Int) :=
      ⟨(findIndex (fun f => f.id == e.id) feed).toNat, by omega⟩
    rw [mergeGen_found tr feed e n hn]
    rw [mergeGen_found tr (feed.set n e) e n (findIndex_set _ e hpe feed n hn)]
    exact List.set_set e e feed n
  · have hneg : findIndex (fun f => f.id == e.id) feed < 0 := by omega
    rw [mergeGen_neg tr feed e hneg]
    have h0' : findIndex (fun f => f.id == e.id) (e :: tr feed) = ((0 : Nat) : Int) := by
      simp [findIndex, hpe]
    rw [mergeGen_found tr (e :: tr feed) e 0 h0']
    rfl

lemma feedIds_set (l : List Feedback) (n : Nat) (e : Feedback) :
    feedIds (l.set n e) = (feedIds l).set n e.id := by
  simp [feedIds, List.map_set]

lemma mergeGen_nodup (tr : List Feedback → List Feedback)
    (htr : ∀ l, List.Sublist (tr l) l) (feed : List Feedback) (e : Feedback)
    (h : (feedIds feed).Nodup) : (feedIds (mergeGen tr feed e)).Nodup := by
  by_cases h0 : 0 ≤ findIndex (fun f => f.id == e.id) feed
  · obtain ⟨n, hn⟩ : ∃ n : Nat, findIndex (fun f => f.id == e.id) feed = (n : Int) :=
      ⟨(findIndex (fun f => f.id == e.id) feed).toNat, by omega⟩
    rw [mergeGen_found tr feed e n hn]
    obtain ⟨g, hg, hpg⟩ := findIndex_get? (fun f => f.id == e.id) feed h0
    rw [hn] at hg
    have hgn : feed.get? n = some g := by
      have : ((n : Int)).toNat = n := by omega
      rwa [this] at hg
    have hid : g.id = e.id := by simpa using hpg
    have hids : (feedIds feed).get? n = some e.id := by
      rw [feedIds, List.get?_map, hgn]
      simp [hid]
    rw [feedIds_set, set_get?_self _ n _ hids]
    exact h
  · have hneg : findIndex (fun f => f.id == e.id) feed < 0 := by omega
    have hnone := (findIndex_neg_iff _ feed).mp hneg
    rw [mergeGen_neg tr feed e hneg]
    have hsub : List.Sublist (feedIds (tr feed)) (feedIds feed) :=
      (htr feed).map Feedback.id
    refine List.nodup_cons.mpr ⟨?_, hsub.nodup h⟩
    intro hmem
    obtain ⟨x, hx, hxid⟩ := List.mem_map.mp hmem
    have hxfeed : x ∈ feed := (htr feed).subset hx
    have := hnone x hxfeed
    rw [beq_eq_false_iff_ne] at this
    exact this hxid

lemma mergeGen_mem (tr : List Feedback → List Feedback)
    (htr : ∀ l, List.Sublist (tr l) l) (feed : List Feedback) (e x : Feedback)
    (h : (feedIds feed).Nodup) (hx : x ∈ mergeGen tr feed e) :
    x = e ∨ (x ∈ feed ∧ x.id ≠ e.id) := by
  by_cases h0 : 0 ≤ findIndex (fun f => f.id == e.id) feed
  · obtain ⟨n, hn⟩ : ∃ n : Nat, findIndex (fun f => f.id == e.id) feed = (n : Int) :=
      ⟨(findIndex (fun f => f.id == e.id) feed).toNat, by omega⟩
    rw [mergeGen_found tr feed e n hn] at hx
    rcases mem_set_cases feed n e x hx with rfl | ⟨j, hjn, hget⟩
    · exact Or.inl rfl
    · refine Or.inr ⟨List.get?_mem hget, ?_⟩
      intro hxid
      obtain ⟨g, hg, hpg⟩ := findIndex_get? (fun f => f.id == e.id) feed h0
      rw [hn] at hg
      have hgn : feed.get? n = some g := by
        have : ((n : Int)).toNat = n := by omega
        rwa [this] at hg
      have hid : g.id = e.id := by simpa using hpg
      have hjids : (feedIds feed).get? j = some e.id := by
        rw [feedIds, List.get?_map, hget]; simp [hxid]
      have hnids : (feedIds feed).get? n = some e.id := by
        rw [feedIds, List.get?_map, hgn]; simp [hid]
      exact hjn (nodup_get?_inj _ h j n e.id hjids hnids)
  · have hneg : findIndex (fun f => f.id == e.id) feed < 0 := by omega
    have hnone := (findIndex_neg_iff _ feed).mp hneg
    rw [mergeGen_neg tr feed e hneg] at hx
    rcases List.mem_cons.mp hx with rfl | hx
    · exact Or.inl rfl
    · have hxfeed : x ∈ feed := (htr feed).subset hx
      refine Or.inr ⟨hxfeed, ?_⟩
      have := hnone x hxfeed
      rwa [beq_eq_false_iff_ne] at this

/-- Specification predicate for one entry of the merged feed: either its id
occurred in the event sequence and the entry equals the most recently
observed snapshot for that id, or its id never occurred and the entry was
already in the initial feed. -/
def entrySpec (feed0 : List Feedback) (es : List Feedback) (x : Feedback) : Prop :=
  match lastSnap x.id es with
  | some y => x = y
  | none => x ∈ feed0

lemma foldGen_spec (tr : List Feedback → List Feedback)
    (htr : ∀ l, List.Sublist (tr l) l) :
    ∀ (es feed : List Feedback), (feedIds feed).Nodup →
      (feedIds (es.foldl (mergeGen tr) feed)).Nodup ∧
      ∀ x ∈ es.foldl (mergeGen tr) feed, entrySpec feed es x := by
  intro es
  induction es with
  | nil =>
    intro feed h
    refine ⟨h, ?_⟩
    intro x hx
    simpa [entrySpec, lastSnap] using hx
  | cons e rest ih =>
    intro feed h
    have h1 := mergeGen_nodup tr htr feed e h
    obtain ⟨hnd, hmem⟩ := ih (mergeGen tr feed e) h1
    refine ⟨by simpa using hnd, ?_⟩
    intro x hx
    have hspec := hmem x (by simpa using hx)
    unfold entrySpec at hspec ⊢
    cases hrest : lastSnap x.id rest with
    | some y =>
      rw [hrest] at hspec
      simpa [lastSnap, hrest] using hspec
    | none =>
      rw [hrest] at hspec
      rcases mergeGen_mem tr htr feed e x h hspec with rfl | ⟨hxf, hne⟩
      · simp [lastSnap, hrest]
      · have hbne : (e.id == x.id) = false := by
          rw [beq_eq_false_iff_ne]
          exact fun hh => hne hh.symm
        simpa [lastSnap, hrest, hbne] using hxf

/-- Five-entry feed already at the page-size bound (ids a..e), and an
incoming snapshot with a fresh id. -/
def exFeed : List Feedback :=
  [⟨"a", "ta", "product", "completed"⟩, ⟨"b", "tb", "product", "completed"⟩,
   ⟨"c", "tc", "product", "completed"⟩, ⟨"d", "td", "product", "completed"⟩,
   ⟨"e", "te", "product", "completed"⟩]

/-- Incoming feedback_update snapshot whose id is not in `exFeed`. -/
def exEvent : Feedback := ⟨"f", "tf", "product", "processing"⟩

/-- C2: the client merge of a feedback_update event into the local feed is
idempotent: merging the same snapshot twice yields the same feed as merging
it once, for both the Dashboard.tsx merge and the use-dashboard.ts merge. -/
theorem merge_feedback_update_idempotent (feed : List Feedback) (e : Feedback) :
    mergeDash (mergeDash feed e) e = mergeDash feed e ∧
    mergeHook (mergeHook feed e) e = mergeHook feed e := by
  constructor
  · rw [mergeDash_eq_gen, mergeDash_eq_gen]
    exact mergeGen_idem _ _ _
  · rw [mergeHook_eq_gen, mergeHook_eq_gen]
    exact mergeGen_idem _ _ _

/-- C3: folding any sequence of feedback_update events into a feed with
pairwise-distinct ids keeps the ids pairwise distinct, and every surviving
entry whose id occurred in the sequence equals the most recently observed
snapshot for that id (entries with unseen ids come unchanged from the
initial feed); this holds for both merge sites. -/
theorem feed_dedup_latest_wins (feed0 es : List Feedback)
    (h : (feedIds feed0).Nodup) :
    ((feedIds (applyEvents feed0 es)).Nodup ∧
      ∀ x ∈ applyEvents feed0 es, entrySpec feed0 es x) ∧
    ((feedIds (applyEventsHook feed0 es)).Nodup ∧
      ∀ x ∈ applyEventsHook feed0 es, entrySpec feed0 es x) := by
  have htake : ∀ l : List Feedback, List.Sublist (l.take 4) l :=
    fun l => List.take_sublist 4 l
  have hrefl : ∀ l : List Feedback, List.Sublist ((fun l : List Feedback => l) l) l :=
    fun l => List.Sublist.refl l
  constructor
  · have heq : applyEvents feed0 es = es.foldl (mergeGen (fun l => l.take 4)) feed0 := by
      unfold applyEvents
      congr 1
    rw [heq]
    exact foldGen_spec (fun l => l.take 4) htake es feed0 h
  · have heq : applyEventsHook feed0 es = es.foldl (mergeGen (fun l => l)) feed0 := by
      unfold applyEventsHook
      congr 1
    rw [heq]
    exact foldGen_spec (fun l => l) hrefl es feed0 h

/-- C3 witness: the theorem applied to the empty feed and a concrete
two-event sequence. -/
theorem feed_dedup_latest_wins_witness :
    ((feedIds (applyEvents [] [exEvent, exEvent])).Nodup ∧
      ∀ x ∈ applyEvents [] [exEvent, exEvent], entrySpec [] [exEvent, exEvent] x) ∧
    ((feedIds (applyEventsHook [] [exEvent, exEvent])).Nodup ∧
      ∀ x ∈ applyEventsHook [] [exEvent, exEvent], entrySpec [] [exEvent, exEvent] x) :=
  feed_dedup_latest_wins [] [exEvent, exEvent] (by simp [feedIds])

/-- C4 counterexample: with the use-dashboard.ts merge, an event for an id
not present in a feed already holding 5 entries (the page size) is
prepended without any trim, so the feed grows to 6 entries — the merge does
not keep the feed within the bound. -/
theorem mergeHook_exceeds_bound :
    mergeHook exFeed exEvent = exEvent :: exFeed ∧
    (mergeHook exFeed exEvent).length = 6 := by
  constructor
  · decide
  · decide

/-- C4 amended: on an event for an id not in the feed, the Dashboard.tsx
merge prepends the snapshot and trims the previous feed to its first 4
entries, so that merged feed never exceeds 5 entries; the use-dashboard.ts
merge prepends without trimming, so its feed can grow beyond the page
size. -/
theorem merge_prepend_trim_amended (feed : List Feedback) (e : Feedback)
    (h : e.id ∉ feedIds feed) :
    mergeDash feed e = e :: feed.take 4 ∧
    (mergeDash feed e).length ≤ 5 ∧
    mergeHook feed e = e :: feed := by
  have hd : mergeDash feed e = e :: feed.take 4 := by
    rw [mergeDash_eq_gen]
    exact mergeGen_not_mem _ feed e h
  have hh : mergeHook feed e = e :: feed := by
    rw [mergeHook_eq_gen]
    exact mergeGen_not_mem _ feed e h
  refine ⟨hd, ?_, hh⟩
  rw [hd]
  simp only [List.length_cons, List.length_take]
  omega

/-- C4 amended witness: the amended statement at the concrete full feed and
fresh event. -/
theorem merge_prepend_trim_amended_witness :
    exEvent.id ∉ feedIds exFeed ∧
    (mergeDash exFeed exEvent = exEvent :: exFeed.take 4 ∧
      (mergeDash exFeed exEvent).length ≤ 5 ∧
      mergeHook exFeed exEvent = exEvent :: exFeed) :=
  ⟨by decide, merge_prepend_trim_amended exFeed exEvent (by decide)⟩

/-- Connection-relevant state of the SSEService singleton
(`src/frontend/src/services/sseService.ts`). `eventSource = true` models
`this.eventSource !== null`, `watchdogTimer = true` models
`this.watchdogTimerId !== null`, `eventHandlers` holds opaque identifiers
of the registered handlers, and timestamps are in milliseconds. -/
structure SSEState where
  eventSource : Bool
  isConnected : Bool
  reconnectAttempts : Nat
  eventHandlers : List Nat
  watchdogTimer : Bool
  lastEventAt : Nat
deriving DecidableEq, Repr

/-- The `reconnectDelay = 1000` field; it is never reassigned. -/
def reconnectDelay : Nat := 1000

/-- The connect() method: it returns immediately when the service is
already connected or an EventSource already exists; otherwise it creates
the EventSource. The onopen/onmessage/onerror callbacks it installs are
modelled as the separate transitions below. -/
def connect (s : SSEState) : SSEState :=
  if s.isConnected || s.eventSource then s
  else { s with eventSource := true }

/-- startWatchdog(): returns at once when the interval timer is already
running, otherwise installs the 30-second interval timer. -/
def startWatchdog (s : SSEState) : SSEState :=
  if s.watchdogTimer then s else { s with watchdogTimer := true }

/-- The onopen handler: marks the connection open, resets the attempt
counter, stamps lastEventAt with the current time and starts the
watchdog. -/
def onOpen (s : SSEState) (now : Nat) : SSEState :=
  startWatchdog { s with isConnected := true, reconnectAttempts := 0, lastEventAt := now }

/-- The onmessage handler for a message that parses, of any kind
(connected, heartbeat or feedback_update): stamps lastEventAt and resets
the attempt counter before dispatching to the registered handlers. -/
def onMessage (s : SSEState) (now : Nat) : SSEState :=
  { s with lastEventAt := now, reconnectAttempts := 0 }

/-- handleReconnect(): increments the attempt counter and computes the
delay `Math.min(this.reconnectDelay * Math.pow(2, this.reconnectAttempts - 1),
30000)` after which the scheduled disconnect-then-connect body runs. -/
def handleReconnect (s : SSEState) : SSEState × Nat :=
  ({ s with reconnectAttempts := s.reconnectAttempts + 1 },
    min (reconnectDelay * 2 ^ (s.reconnectAttempts + 1 - 1)) 30000)

/-- disconnect(): closes and drops the EventSource, clears the connection
flag and the attempt counter, and stops the watchdog. -/
def disconnect (s : SSEState) : SSEState :=
  { s with eventSource := false, isConnected := false, reconnectAttempts := 0,
           watchdogTimer := false }

/-- Body of the setTimeout scheduled by handleReconnect: disconnect (clean
up before reconnecting), then connect. -/
def reconnectCycle (s : SSEState) : SSEState :=
  connect (disconnect s)

/-- The onerror handler: clears the connection flag, then invokes
handleReconnect (the Nat component is the scheduled delay). -/
def onError (s : SSEState) : SSEState × Nat :=
  handleReconnect { s with isConnected := false }

/-- One tick of the 30-second watchdog interval: when an EventSource
exists and more than 60000 ms have passed since the last received message,
invoke handleReconnect; the Bool reports whether a reconnect was forced. -/
def watchdogTick (s : SSEState) (now : Nat) : SSEState × Bool :=
  if s.eventSource = true ∧ now - s.lastEventAt > 60000 then ((handleReconnect s).1, true)
  else (s, false)

/-- Concrete SSE service state: connected, two prior reconnect attempts,
one registered handler, last message at t = 1000 ms. -/
def exSSE : SSEState :=
  { eventSource := true, isConnected := true, reconnectAttempts := 2,
    eventHandlers := [0], watchdogTimer := true, lastEventAt := 1000 }

/-- C5: on the n-th consecutive reconnect attempt (counter at n−1), the
scheduled delay is the base interval 1000 ms times 2^(n−1), capped at
30000 ms, and the counter advances to n; receipt of any parsed message of
any kind resets the counter to zero, so the next failure restarts backoff
from the base delay. -/
theorem reconnect_backoff_delay (s : SSEState) (n : Nat) (h1 : 1 ≤ n)
    (h2 : s.reconnectAttempts = n - 1) :
    (handleReconnect s).2 = min (1000 * 2 ^ (n - 1)) 30000 ∧
    (handleReconnect s).1.reconnectAttempts = n ∧
    (∀ (t : SSEState) (now : Nat), (onMessage t now).reconnectAttempts = 0) := by
  have hexp : s.reconnectAttempts + 1 - 1 = n - 1 := by omega
  refine ⟨?_, ?_, fun t now => rfl⟩
  · simp [handleReconnect, reconnectDelay, hexp]
  · simp [handleReconnect]
    omega

/-- C5 witness: third consecutive attempt from the concrete state with
counter 2 schedules min(1000·2², 30000) = 4000 ms. -/
theorem reconnect_backoff_delay_witness :
    (1 ≤ 3 ∧ exSSE.reconnectAttempts = 3 - 1) ∧
    ((handleReconnect exSSE).2 = min (1000 * 2 ^ (3 - 1)) 30000 ∧
      (handleReconnect exSSE).1.reconnectAttempts = 3 ∧
      (∀ (t : SSEState) (now : Nat), (onMessage t now).reconnectAttempts = 0)) :=
  ⟨⟨by decide, by decide⟩, reconnect_backoff_delay exSSE 3 (by decide) (by decide)⟩

/-- C6: while an EventSource is open, a watchdog tick forces the
disconnect-and-reconnect cycle exactly when more than 60 seconds have
passed since the last received message of any kind, and leaves the state
untouched while messages keep arriving within the threshold; the forced
cycle closes the connection and opens a fresh EventSource without any
error event having fired. -/
theorem watchdog_stale_reconnect (s : SSEState) (now : Nat)
    (hopen : s.eventSource = true) :
    (now - s.lastEventAt > 60000 →
      watchdogTick s now = ((handleReconnect s).1, true)) ∧
    (now - s.lastEventAt ≤ 60000 → watchdogTick s now = (s, false)) ∧
    (∀ t : SSEState, (reconnectCycle t).eventSource = true ∧
      (reconnectCycle t).isConnected = false) := by
  refine ⟨?_, ?_, ?_⟩
  · intro h
    rw [watchdogTick, if_pos ⟨hopen, h⟩]
  · intro h
    rw [watchdogTick, if_neg]
    rintro ⟨-, hgt⟩
    omega
  · intro t
    constructor <;> simp [reconnectCycle, connect, disconnect]

/-- C6 witness: at t = 70000 ms with the last message at t = 1000 ms the
tick fires (69000 > 60000), and at t = 50000 ms it does not. -/
theorem watchdog_stale_reconnect_witness :
    (70000 - exSSE.lastEventAt > 60000 →
      watchdogTick exSSE 70000 = ((handleReconnect exSSE).1, true)) ∧
    (70000 - exSSE.lastEventAt ≤ 60000 → watchdogTick exSSE 70000 = (exSSE, false)) ∧
    (∀ t : SSEState, (reconnectCycle t).eventSource = true ∧
      (reconnectCycle t).isConnected = false) :=
  watchdog_stale_reconnect exSSE 70000 (by decide)

/-- C10: connect() while already connected or while an EventSource exists
returns without touching any state, and connect is idempotent on every
state. -/
theorem connect_noop_idempotent (s : SSEState) :
    (s.isConnected = true ∨ s.eventSource = true → connect s = s) ∧
    connect (connect s) = connect s := by
  constructor
  · intro h
    rcases h with h | h <;> simp [connect, h]
  · by_cases h : (s.isConnected || s.eventSource) = true
    · simp [connect, h]
    · have h' : (s.isConnected || s.eventSource) = false := by simpa using h
      simp [connect, h']

/-- C10 witness: on the concrete connected state, connect is a no-op and
idempotent. -/
theorem connect_noop_idempotent_witness :
    connect exSSE = exSSE ∧ connect (connect exSSE) = connect exSSE :=
  ⟨(connect_noop_idempotent exSSE).1 (Or.inl rfl), (connect_noop_idempotent exSSE).2⟩

/-- Zod form schema of the feedback submission form: category must be
nonempty (`min(1)`), text must be 10 to 5000 characters (`min(10)`,
`max(5000)`, both inclusive). Lengths are in characters, as in
JavaScript. -/
def formSchemaValidates (category text : String) : Bool :=
  decide (1 ≤ category.length) && decide (10 ≤ text.length) &&
    decide (text.length ≤ 5000)

/-- A submission request as sent by `feedbackAPI.submitFeedback`. -/
structure SubmitRequest where
  category : String
  text : String
deriving DecidableEq, Repr

/-- Submission flow of the feedback form: `form.handleSubmit(onSubmit)`
runs `onSubmit` — which issues the API request — only when the zod
resolver accepts the values, so rejected input causes no request. -/
def trySubmit (category text : String) : Option SubmitRequest :=
  if formSchemaValidates category text then some ⟨category, text⟩ else none

lemma string_length_zero {s : String} (h : s.length = 0) : s = "" := by
  have hd : s.data = [] := by
    have hl : s.data.length = 0 := by rw [String.length_data]; exact h
    exact List.length_eq_zero.mp hl
  cases s with
  | mk data => simp only at hd; rw [hd]

lemma formSchemaValidates_iff (category text : String) :
    formSchemaValidates category text = true ↔
      (1 ≤ category.length ∧ 10 ≤ text.length ∧ text.length ≤ 5000) := by
  unfold formSchemaValidates
  simp [and_assoc]

/-- C7: a submission whose text is shorter than 10 or longer than 5000
characters, or whose category is empty, is rejected by validation and no
request is issued; text of length 10 to 5000 inclusive with a nonempty
category passes validation and is submitted. -/
theorem submission_validation (category text : String) :
    ((text.length < 10 ∨ 5000 < text.length ∨ category = "") →
      trySubmit category text = none) ∧
    ((10 ≤ text.length ∧ text.length ≤ 5000 ∧ category ≠ "") →
      trySubmit category text = some ⟨category, text⟩) := by
  have hiff := formSchemaValidates_iff category text
  constructor
  · intro h
    have hf : formSchemaValidates category text = false := by
      rw [Bool.eq_false_iff]
      intro ht
      obtain ⟨h1, h2, h3⟩ := hiff.mp ht
      rcases h with h | h | h
      · omega
      · omega
      · rw [h] at h1
        exact absurd h1 (by decide)
    simp [trySubmit, hf]
  · rintro ⟨h1, h2, h3⟩
    have hc : 1 ≤ category.length := by
      by_contra hc
      have hz : category.length = 0 := by omega
      exact h3 (string_length_zero hz)
    have ht := hiff.mpr ⟨hc, h1, h2⟩
    simp [trySubmit, ht]

/-- C7 witness: a concrete 20-character submission with a nonempty
category is validated and submitted. -/
theorem submission_validation_witness :
    (10 ≤ ("Great responsiveness" : String).length ∧
      ("Great responsiveness" : String).length ≤ 5000 ∧
      ("product" : String) ≠ "") ∧
    trySubmit "product" "Great responsiveness" =
      some ⟨"product", "Great responsiveness"⟩ :=
  ⟨by decide, (submission_validation "product" "Great responsiveness").2 (by decide)⟩

/-- Kind field of a parsed server-sent event. -/
inductive SSEEventKind
  | connected
  | heartbeat
  | feedback_update
deriving DecidableEq, Repr

/-- Parsed server-sent event as passed to the registered handlers. -/
structure SSEEvent where
  type : SSEEventKind
  data : Option Feedback
deriving DecidableEq, Repr

/-- Result of invoking one JavaScript callback: it either returns normally
or throws. -/
inductive CallbackOutcome
  | ok
  | threw (msg : String)
deriving DecidableEq, Repr

/-- The dispatch loop shared by SSEService.onmessage and
AudioManager.notify: each registered handler is invoked inside try/catch,
so a throwing handler is logged and the loop continues with the next
handler instead of aborting the iteration. -/
def dispatchAll (handlers : List (SSEEvent → CallbackOutcome)) (ev : SSEEvent) :
    List CallbackOutcome :=
  match handlers with
  | [] => []
  | h :: rest => h ev :: dispatchAll rest ev

/-- C9: on every dispatch each registered listener is invoked with the
event — the outcome list is the pointwise application of all handlers and
has the registry's length, regardless of which handlers throw. -/
theorem dispatch_reaches_every_listener
    (handlers : List (SSEEvent → CallbackOutcome)) (ev : SSEEvent) :
    dispatchAll handlers ev = handlers.map (fun h => h ev) ∧
    (dispatchAll handlers ev).length = handlers.length := by
  have hmap : ∀ hs : List (SSEEvent → CallbackOutcome),
      dispatchAll hs ev = hs.map (fun h => h ev) := by
    intro hs
    induction hs with
    | nil => rfl
    | cons h rest ih => simp [dispatchAll, ih]
  refine ⟨hmap handlers, ?_⟩
  rw [hmap handlers]
  simp

/-- One HTMLAudioElement as the playback coordinator observes it: source
URL, paused flag and playback position (seconds, discretised). -/
structure AudioElem where
  src : String
  paused : Bool
  currentTime : Nat
deriving DecidableEq, Repr

/-- Element lookup in an identity-keyed store of audio elements; the Nat
key models JavaScript object identity, so the preload cache and
currentAudio can alias one element. -/
def storeGet (hs : List (Nat × AudioElem)) (i : Nat) : Option AudioElem :=
  (hs.find? (fun p => p.1 == i)).map (fun p => p.2)

/-- In-place mutation of the element with identity `i`. -/
def storeSet (hs : List (Nat × AudioElem)) (i : Nat)
    (f : AudioElem → AudioElem) : List (Nat × AudioElem) :=
  hs.map (fun p => if p.1 = i then (p.1, f p.2) else p)

/-- State of the AudioManager singleton
(`src/frontend/src/services/audioManager.ts`): `elems` is the store of
live audio elements, `currentAudio` and `currentFeedbackId` the tracked
current handle, `audioPreloadCache` the url-keyed preload cache (holding
element identities), `nextId` the next fresh identity. The listener set is
modelled separately (`dispatchAll`) since notify() never mutates this
state. -/
structure AMState where
  elems : List (Nat × AudioElem)
  currentAudio : Option Nat
  currentFeedbackId : Option String
  audioPreloadCache : List (String × Nat)
  nextId : Nat
deriving DecidableEq, Repr

/-- Element identities currently held by the preload cache. -/
def cacheIds (s : AMState) : List Nat := s.audioPreloadCache.map (fun q => q.2)

/-- The `audioPreloadCache.forEach` loop at the top of playAudio: pause
and rewind every cached element that is not paused ("extra safety ... to
prevent overlap"). -/
def pauseCached (s : AMState) : AMState :=
  { s with elems := s.elems.map (fun p =>
      if p.1 ∈ cacheIds s ∧ p.2.paused = false then
        (p.1, { p.2 with paused := true, currentTime := 0 })
      else p) }

/-- stopCurrent(): pause and rewind the current audio element, if any. -/
def stopCurrent (s : AMState) : AMState :=
  match s.currentAudio with
  | some c =>
      { s with
        elems := storeSet s.elems c (fun e => { e with paused := true, currentTime := 0 }) }
  | none => s

/-- cleanup(): pause the current element, clear its src and reload it,
evict the first preload-cache entry holding this element, and clear the
current-audio and current-feedback fields. -/
def cleanup (s : AMState) : AMState :=
  match s.currentAudio with
  | some c =>
      { s with
        elems := storeSet s.elems c (fun e => { e with paused := true, src := "", currentTime := 0 }),
        audioPreloadCache := s.audioPreloadCache.eraseP (fun q => q.2 == c),
        currentAudio := none, currentFeedbackId := none }
  | none => { s with currentAudio := none, currentFeedbackId := none }

/-- Middle step of playAudio: obtain the element for the url. A cache miss
creates a fresh element (paused, at position 0) and caches it; a cache hit
reuses the cached element, refreshing its src in place when it no longer
matches. Returns the updated state and the element's identity. -/
def obtainAudio (s1 : AMState) (audioUrl : String) : AMState × Nat :=
  match s1.audioPreloadCache.find? (fun q => q.1 == audioUrl) with
  | none =>
      ({ s1 with elems := (s1.nextId, ⟨audioUrl, true, 0⟩) :: s1.elems,
                 audioPreloadCache := (audioUrl, s1.nextId) :: s1.audioPreloadCache,
                 nextId := s1.nextId + 1 }, s1.nextId)
  | some q =>
      ((if (storeGet s1.elems q.2).map (fun e => e.src) = some audioUrl then s1
        else { s1 with elems := storeSet s1.elems q.2 (fun e => { e with src := audioUrl }) }),
       q.2)

/-- playAudio(feedbackId, audioUrl); `playOk` says whether the
`audio.play()` promise resolved. In source order: pause every cached
element, stop the current one, obtain the element for the url, make it
current, then start playback — or run cleanup when play() rejects. -/
def playAudio (s : AMState) (feedbackId audioUrl : String) (playOk : Bool) : AMState :=
  let s1 := stopCurrent (pauseCached s)
  let s2 := obtainAudio s1 audioUrl
  let s3 := { s2.1 with currentAudio := some s2.2, currentFeedbackId := some feedbackId }
  if playOk then
    { s3 with elems := storeSet s3.elems s2.2 (fun e => { e with paused := false }) }
  else cleanup s3

/-- pauseAudio: pauses only when the given id is the tracked current
resource and a current element exists. -/
def pauseAudio (s : AMState) (feedbackId : String) : AMState :=
  match s.currentAudio with
  | some c =>
      if s.currentFeedbackId = some feedbackId then
        { s with elems := storeSet s.elems c (fun e => { e with paused := true }) }
      else s
  | none => s

/-- resumeAudio: restarts playback only for the tracked current resource;
on play() rejection it runs cleanup. -/
def resumeAudio (s : AMState) (feedbackId : String) (playOk : Bool) : AMState :=
  match s.currentAudio with
  | some c =>
      if s.currentFeedbackId = some feedbackId then
        (if playOk then
          { s with elems := storeSet s.elems c (fun e => { e with paused := false }) }
         else cleanup s)
      else s
  | none => s

/-- stopAudio: stops the current element only when the given id is the
tracked current resource (no currentAudio check in the source). -/
def stopAudio (s : AMState) (feedbackId : String) : AMState :=
  if s.currentFeedbackId = some feedbackId then stopCurrent s else s

/-- isCurrentlyPlaying(): a current element exists and is not paused. -/
def isCurrentlyPlaying (s : AMState) : Bool :=
  match s.currentAudio with
  | some c =>
      match storeGet s.elems c with
      | some e => !e.paused
      | none => false
  | none => false

/-- isPlaying(feedbackId): the id is the tracked current resource and the
current element is playing. -/
def isPlaying (s : AMState) (feedbackId : String) : Bool :=
  decide (s.currentFeedbackId = some feedbackId) && isCurrentlyPlaying s

lemma find_fst_map (g : Nat × AudioElem → Nat × AudioElem)
    (hg : ∀ p, (g p).1 = p.1) (i : Nat) :
    ∀ hs : List (Nat × AudioElem),
      (hs.map g).find? (fun p => p.1 == i) =
        (hs.find? (fun p => p.1 == i)).map g := by
  intro hs
  induction hs with
  | nil => rfl
  | cons p tl ih =>
    simp only [List.map_cons, List.find?]
    rw [hg p]
    cases hpi : (p.1 == i) <;> simp [hpi, ih]

lemma storeSet_fst (i : Nat) (f : AudioElem → AudioElem) :
    ∀ p : Nat × AudioElem, ((fun p : Nat × AudioElem =>
      if p.1 = i then (p.1, f p.2) else p) p).1 = p.1 := by
  intro p
  by_cases h : p.1 = i <;> simp [h]

lemma storeGet_storeSet_self (hs : List (Nat × AudioElem)) (i : Nat)
    (f : AudioElem → AudioElem) :
    storeGet (storeSet hs i f) i = (storeGet hs i).map f := by
  unfold storeGet storeSet
  rw [find_fst_map _ (storeSet_fst i f) i hs]
  cases hfind : hs.find? (fun p => p.1 == i) with
  | none => rfl
  | some p =>
    have hp := List.find?_some hfind
    have hp' : p.1 = i := by simpa using hp
    simp [hp']

lemma storeGet_cons_self (n : Nat) (e : AudioElem) (tl : List (Nat × AudioElem)) :
    storeGet ((n, e) :: tl) n = some e := by
  unfold storeGet
  rw [List.find?_cons_of_pos _ (by simp)]
  rfl

lemma storeGet_isSome_map (g : Nat × AudioElem → Nat × AudioElem)
    (hg : ∀ p, (g p).1 = p.1) (hs : List (Nat × AudioElem)) (i : Nat) :
    (storeGet (hs.map g) i).isSome = (storeGet hs i).isSome := by
  unfold storeGet
  rw [find_fst_map g hg i hs]
  cases h : hs.find? (fun p => p.1 == i) <;> simp [h]

lemma storeGet_storeSet_isSome (hs : List (Nat × AudioElem)) (i : Nat)
    (f : AudioElem → AudioElem) (j : Nat) :
    (storeGet (storeSet hs i f) j).isSome = (storeGet hs j).isSome := by
  unfold storeGet storeSet
  rw [find_fst_map _ (storeSet_fst i f) j hs]
  cases h : hs.find? (fun p => p.1 == j) <;> simp [h]

lemma storeSet_mem (hs : List (Nat × AudioElem)) (i : Nat)
    (f : AudioElem → AudioElem) (p : Nat × AudioElem)
    (hp : p ∈ storeSet hs i f) :
    (∃ p0, p0 ∈ hs ∧ p0.1 = i ∧ p = (p0.1, f p0.2)) ∨ (p ∈ hs ∧ p.1 ≠ i) := by
  unfold storeSet at hp
  obtain ⟨p0, hp0, heq⟩ := List.mem_map.mp hp
  by_cases hb : p0.1 = i
  · rw [if_pos hb] at heq
    exact Or.inl ⟨p0, hp0, hb, heq.symm⟩
  · rw [if_neg hb] at heq
    subst heq
    exact Or.inr ⟨hp0, hb⟩

lemma pauseCached_mem (s : AMState) (p : Nat × AudioElem)
    (hp : p ∈ (pauseCached s).elems) :
    (∃ p0, p0 ∈ s.elems ∧ p0.1 = p.1 ∧ p.2.paused = true) ∨
    (p ∈ s.elems ∧ ¬ (p.1 ∈ cacheIds s ∧ p.2.paused = false)) := by
  obtain ⟨p0, hp0, heq⟩ := List.mem_map.mp hp
  by_cases hcond : p0.1 ∈ cacheIds s ∧ p0.2.paused = false
  · rw [if_pos hcond] at heq
    exact Or.inl ⟨p0, hp0, by rw [← heq], by rw [← heq]⟩
  · rw [if_neg hcond] at heq
    subst heq
    exact Or.inr ⟨hp0, hcond⟩

lemma pauseCached_currentAudio (s : AMState) :
    (pauseCached s).currentAudio = s.currentAudio := rfl

lemma pauseCached_cache (s : AMState) :
    (pauseCached s).audioPreloadCache = s.audioPreloadCache := rfl

lemma stopCurrent_currentAudio (t : AMState) :
    (stopCurrent t).currentAudio = t.currentAudio := by
  cases h : t.currentAudio <;> simp [stopCurrent, h]

lemma stopCurrent_currentFeedbackId (t : AMState) :
    (stopCurrent t).currentFeedbackId = t.currentFeedbackId := by
  cases h : t.currentAudio <;> simp [stopCurrent, h]

lemma stopCurrent_cache (t : AMState) :
    (stopCurrent t).audioPreloadCache = t.audioPreloadCache := by
  cases h : t.currentAudio <;> simp [stopCurrent, h]

lemma stopCurrent_mem (t : AMState) (p : Nat × AudioElem)
    (hp : p ∈ (stopCurrent t).elems) :
    (∃ p0, p0 ∈ t.elems ∧ p0.1 = p.1 ∧ p.2.paused = true) ∨
    (p ∈ t.elems ∧ t.currentAudio ≠ some p.1) := by
  cases hc : t.currentAudio with
  | none =>
    rw [show (stopCurrent t).elems = t.elems from by simp [stopCurrent, hc]] at hp
    exact Or.inr ⟨hp, by simp [hc]⟩
  | some c =>
    rw [show (stopCurrent t).elems = storeSet t.elems c
        (fun e => { e with paused := true, currentTime := 0 }) from by
      simp [stopCurrent, hc]] at hp
    rcases storeSet_mem _ _ _ _ hp with ⟨p0, hp0, hpc, rfl⟩ | ⟨hpmem, hpc⟩
    · exact Or.inl ⟨p0, hp0, rfl, rfl⟩
    · refine Or.inr ⟨hpmem, ?_⟩
      intro hcontra
      exact hpc (Option.some.inj hcontra).symm

/-- In the intermediate state reached after the cached-element pause loop
and stopCurrent, every element that was cached or current is paused. -/
lemma s1_cached_current_paused (s : AMState) :
    ∀ p ∈ (stopCurrent (pauseCached s)).elems,
      (p.1 ∈ cacheIds s ∨ s.currentAudio = some p.1) → p.2.paused = true := by
  intro p hp hcc
  rcases stopCurrent_mem _ p hp with ⟨p0, hp0, hpc, hpaused⟩ | ⟨hpmem, hnotcur⟩
  · exact hpaused
  · rw [pauseCached_currentAudio] at hnotcur
    rcases pauseCached_mem s p hpmem with ⟨p0, hp0, hpc, hpaused⟩ | ⟨hpmem', hncond⟩
    · exact hpaused
    · rcases hcc with hcache | hcur
      · cases hpb : p.2.paused with
        | true => rfl
        | false => exact absurd ⟨hcache, hpb⟩ hncond
      · exact absurd hcur hnotcur

/-- Under the single-player invariant, every element is paused in the
intermediate state (the previously playing resource, current or cached,
has been stopped before the new playback starts). -/
lemma s1_all_paused (s : AMState)
    (hinv : ∀ p ∈ s.elems, p.2.paused = false → s.currentAudio = some p.1) :
    ∀ p ∈ (stopCurrent (pauseCached s)).elems, p.2.paused = true := by
  intro p hp
  cases hpb : p.2.paused with
  | true => rfl
  | false =>
    exfalso
    rcases stopCurrent_mem _ p hp with ⟨p0, hp0, hpc, hpaused⟩ | ⟨hpmem, hnotcur⟩
    · rw [hpaused] at hpb; exact Bool.true_eq_false.mp hpb
    · rw [pauseCached_currentAudio] at hnotcur
      rcases pauseCached_mem s p hpmem with ⟨p0, hp0, hpc, hpaused⟩ | ⟨hpmem', hncond⟩
      · rw [hpaused] at hpb; exact Bool.true_eq_false.mp hpb
      · exact hnotcur (hinv p hpmem' hpb)

/-- Behaviour of the obtain-element step: it never touches the current
fields, never unpauses an element, and — whenever the preload cache only
holds identities of live elements — returns the identity of a live
element. -/
lemma obtainAudio_spec (s1 : AMState) (url : String) :
    (obtainAudio s1 url).1.currentAudio = s1.currentAudio ∧
    (obtainAudio s1 url).1.currentFeedbackId = s1.currentFeedbackId ∧
    (∀ p ∈ (obtainAudio s1 url).1.elems, p.2.paused = false →
      ∃ p0, p0 ∈ s1.elems ∧ p0.2.paused = false) ∧
    ((∀ q ∈ s1.audioPreloadCache, (storeGet s1.elems q.2).isSome = true) →
      (storeGet (obtainAudio s1 url).1.elems (obtainAudio s1 url).2).isSome = true) := by
  cases hf : s1.audioPreloadCache.find? (fun q => q.1 == url) with
  | none =>
    refine ⟨by simp [obtainAudio, hf], by simp [obtainAudio, hf], ?_, ?_⟩
    · intro p hp hpf
      simp only [obtainAudio, hf] at hp
      rcases List.mem_cons.mp hp with rfl | hp
      · simp at hpf
      · exact ⟨p, hp, hpf⟩
    · intro _
      simp only [obtainAudio, hf]
      rw [storeGet_cons_self]
      rfl
  | some q =>
    have hqmem : q ∈ s1.audioPreloadCache := List.mem_of_find?_eq_some hf
    by_cases hsrc : (storeGet s1.elems q.2).map (fun e => e.src) = some url
    · refine ⟨by simp [obtainAudio, hf, hsrc], by simp [obtainAudio, hf, hsrc], ?_, ?_⟩
      · intro p hp hpf
        simp only [obtainAudio, hf, if_pos hsrc] at hp
        exact ⟨p, hp, hpf⟩
      · intro hc
        simp only [obtainAudio, hf, if_pos hsrc]
        exact hc q hqmem
    · refine ⟨by simp [obtainAudio, hf, hsrc], by simp [obtainAudio, hf, hsrc], ?_, ?_⟩
      · intro p hp hpf
        simp only [obtainAudio, hf, if_neg hsrc] at hp
        rcases storeSet_mem _ _ _ _ hp with ⟨p0, hp0, hpc, rfl⟩ | ⟨hpmem, hpc⟩
        · exact ⟨p0, hp0, hpf⟩
        · exact ⟨p, hpmem, hpf⟩
      · intro hc
        simp only [obtainAudio, hf, if_neg hsrc]
        rw [storeGet_storeSet_self]
        have := hc q hqmem
        cases hg : storeGet s1.elems q.2 with
        | none => rw [hg] at this; simp at this
        | some e => rfl

lemma pauseCached_isSome (s : AMState) (i : Nat)
    (h : (storeGet s.elems i).isSome = true) :
    (storeGet (pauseCached s).elems i).isSome = true := by
  have hfst : ∀ p : Nat × AudioElem,
      ((fun p : Nat × AudioElem =>
        if p.1 ∈ cacheIds s ∧ p.2.paused = false then
          (p.1, { p.2 with paused := true, currentTime := 0 })
        else p) p).1 = p.1 := by
    intro p
    by_cases hc : p.1 ∈ cacheIds s ∧ p.2.paused = false <;> simp [hc]
  show (storeGet (s.elems.map _) i).isSome = true
  rw [storeGet_isSome_map _ hfst]
  exact h

lemma stopCurrent_isSome (t : AMState) (i : Nat)
    (h : (storeGet t.elems i).isSome = true) :
    (storeGet (stopCurrent t).elems i).isSome = true := by
  cases hc : t.currentAudio with
  | none =>
    rw [show (stopCurrent t).elems = t.elems from by simp [stopCurrent, hc]]
    exact h
  | some c =>
    rw [show (stopCurrent t).elems = storeSet t.elems c
        (fun e => { e with paused := true, currentTime := 0 }) from by
      simp [stopCurrent, hc]]
    rw [storeGet_storeSet_isSome]
    exact h

/-- Concrete coordinator state: one live element, currently playing as the
current handle for feedback "x", cached under its url. -/
def exAM : AMState :=
  { elems := [(0, ⟨"u1", false, 5⟩)], currentAudio := some 0,
    currentFeedbackId := some "x", audioPreloadCache := [("u1", 0)], nextId := 1 }

/-- C1: under the single-player invariant (only the current element may be
unpaused) and a cache holding only live elements, playAudio for a new
resource first silences everything — in the intermediate state after the
cached pause loop and stopCurrent, every element that was cached or
current is paused — and in the resulting state the newly requested
resource is current and reports playing, every unpaused element is the
current one (so the invariant is preserved), and at most one resource
reports isPlaying. -/
theorem play_exclusive (s : AMState) (fid url : String)
    (hinv : ∀ p ∈ s.elems, p.2.paused = false → s.currentAudio = some p.1)
    (hcache : ∀ q ∈ s.audioPreloadCache, (storeGet s.elems q.2).isSome = true) :
    (∀ p ∈ (stopCurrent (pauseCached s)).elems,
      (p.1 ∈ cacheIds s ∨ s.currentAudio = some p.1) → p.2.paused = true) ∧
    (playAudio s fid url true).currentFeedbackId = some fid ∧
    isPlaying (playAudio s fid url true) fid = true ∧
    (∀ p ∈ (playAudio s fid url true).elems, p.2.paused = false →
      (playAudio s fid url true).currentAudio = some p.1) ∧
    (∀ fid', isPlaying (playAudio s fid url true) fid' = true → fid' = fid) := by
  obtain ⟨hoc, hof, hopause, hosome⟩ := obtainAudio_spec (stopCurrent (pauseCached s)) url
  have hplay : playAudio s fid url true =
      { elems := storeSet (obtainAudio (stopCurrent (pauseCached s)) url).1.elems
          (obtainAudio (stopCurrent (pauseCached s)) url).2
          (fun e => { e with paused := false }),
        currentAudio := some (obtainAudio (stopCurrent (pauseCached s)) url).2,
        currentFeedbackId := some fid,
        audioPreloadCache :=
          (obtainAudio (stopCurrent (pauseCached s)) url).1.audioPreloadCache,
        nextId := (obtainAudio (stopCurrent (pauseCached s)) url).1.nextId } := rfl
  have hcur' : (playAudio s fid url true).currentAudio =
      some (obtainAudio (stopCurrent (pauseCached s)) url).2 := by rw [hplay]
  have hfid' : (playAudio s fid url true).currentFeedbackId = some fid := by rw [hplay]
  have hsome1 : ∀ q ∈ (stopCurrent (pauseCached s)).audioPreloadCache,
      (storeGet (stopCurrent (pauseCached s)).elems q.2).isSome = true := by
    intro q hq
    rw [stopCurrent_cache, pauseCached_cache] at hq
    exact stopCurrent_isSome _ _ (pauseCached_isSome _ _ (hcache q hq))
  obtain ⟨e, he⟩ := Option.isSome_iff_exists.mp (hosome hsome1)
  have helems : (playAudio s fid url true).elems =
      storeSet (obtainAudio (stopCurrent (pauseCached s)) url).1.elems
        (obtainAudio (stopCurrent (pauseCached s)) url).2
        (fun e => { e with paused := false }) := by
    rw [hplay]
  have hget : storeGet (playAudio s fid url true).elems
      (obtainAudio (stopCurrent (pauseCached s)) url).2 = some { e with paused := false } := by
    rw [helems, storeGet_storeSet_self, he]
    rfl
  have hall := s1_all_paused s hinv
  refine ⟨s1_cached_current_paused s, hfid', ?_, ?_, ?_⟩
  · unfold isPlaying isCurrentlyPlaying
    rw [hcur', hfid']
    show (decide (some fid = some fid) &&
      (match storeGet (playAudio s fid url true).elems
          (obtainAudio (stopCurrent (pauseCached s)) url).2 with
       | some e => !e.paused
       | none => false)) = true
    rw [hget]
    simp
  · intro p hp hpf
    have hp' : p ∈ storeSet (obtainAudio (stopCurrent (pauseCached s)) url).1.elems
        (obtainAudio (stopCurrent (pauseCached s)) url).2
        (fun e => { e with paused := false }) := by
      rw [helems] at hp
      exact hp
    rcases storeSet_mem _ _ _ p hp' with ⟨p0, hp0, hpc, rfl⟩ | ⟨hpmem, hpc⟩
    · rw [hcur']
      simp [hpc]
    · obtain ⟨p1, hp1, hp1f⟩ := hopause p hpmem hpf
      have := hall p1 hp1
      rw [this] at hp1f
      exact absurd hp1f (by simp)
  · intro fid' h'
    unfold isPlaying at h'
    rw [Bool.and_eq_true] at h'
    have h2 : (playAudio s fid url true).currentFeedbackId = some fid' :=
      of_decide_eq_true h'.1
    rw [hfid'] at h2
    exact (Option.some.inj h2).symm

/-- C1 witness: the theorem applied to the concrete state in which
feedback "x" is playing, requesting playback of feedback "y" from a new
url. -/
theorem play_exclusive_witness :
    ((∀ p ∈ exAM.elems, p.2.paused = false → exAM.currentAudio = some p.1) ∧
      (∀ q ∈ exAM.audioPreloadCache, (storeGet exAM.elems q.2).isSome = true)) ∧
    ((∀ p ∈ (stopCurrent (pauseCached exAM)).elems,
        (p.1 ∈ cacheIds exAM ∨ exAM.currentAudio = some p.1) → p.2.paused = true) ∧
      (playAudio exAM "y" "u2" true).currentFeedbackId = some "y" ∧
      isPlaying (playAudio exAM "y" "u2" true) "y" = true ∧
      (∀ p ∈ (playAudio exAM "y" "u2" true).elems, p.2.paused = false →
        (playAudio exAM "y" "u2" true).currentAudio = some p.1) ∧
      (∀ fid', isPlaying (playAudio exAM "y" "u2" true) fid' = true → fid' = "y")) :=
  ⟨⟨by decide, by decide⟩, play_exclusive exAM "y" "u2" (by decide) (by decide)⟩

/-- C8: pauseAudio, resumeAudio and stopAudio invoked with an id other
than the tracked current resource leave the coordinator state — elements,
current handle, current feedback id and preload cache — completely
unchanged. -/
theorem non_current_ops_noop (s : AMState) (fid : String) (ok : Bool)
    (h : s.currentFeedbackId ≠ some fid) :
    pauseAudio s fid = s ∧ resumeAudio s fid ok = s ∧ stopAudio s fid = s := by
  refine ⟨?_, ?_, ?_⟩
  · cases hc : s.currentAudio with
    | none => simp [pauseAudio, hc]
    | some c => simp [pauseAudio, hc, h]
  · cases hc : s.currentAudio with
    | none => simp [resumeAudio, hc]
    | some c => simp [resumeAudio, hc, h]
  · simp [stopAudio, h]

/-- C8 witness: on the concrete state playing feedback "x", the three
operations with id "y" change nothing. -/
theorem non_current_ops_noop_witness :
    exAM.currentFeedbackId ≠ some "y" ∧
    (pauseAudio exAM "y" = exAM ∧ resumeAudio exAM "y" true = exAM ∧
      stopAudio exAM "y" = exAM) :=
  ⟨by decide, non_current_ops_noop exAM "y" true (by decide)⟩

end FeedbackAnalysis
